import Mathlib

/-!
Verification of the zenithdb document store (a NoSQL-style layer over SQLite).

This file gives a shallow embedding of the query, index, insert and update
paths of the repository and proves the frozen claims about them.

Conventions of the embedding:
* JSON payloads are modelled by `Json`; a top-level Python dict is a `Doc`
  (an association list preserving insertion order, as Python dicts do).
* The SQLite `documents` table is a `List Row` inside `Store`; rows appear
  in rowid (insertion) order, which is the order an unordered SELECT yields.
* SQL values produced by `json_extract` are modelled by `SqlValue`
  (NULL / INTEGER / TEXT); JSON numbers are integers in this model.
* Python exceptions surfacing from a call are modelled by `Except DBErr` or
  `Option`; a rolled-back transaction leaves the `Store` unchanged.
* The generated `uuid4` identifiers are nondeterministic in the source, so
  they are passed as an explicit list parameter; freshness and distinctness
  are hypotheses where the proofs need them.
-/

/-- JSON values as stored in the `data` column (`json.dumps`/`json.loads`).
Numbers are modelled as integers. -/
inductive Json where
  | null
  | bool (b : Bool)
  | num (n : Int)
  | str (s : String)
  | arr (elems : List Json)
  | obj (fields : List (String × Json))
deriving Repr

mutual
/-- Boolean equality on `Json` (needed because `deriving DecidableEq` does not
handle the nested inductive). -/
def jsonBeq : Json → Json → Bool
  | .null, .null => true
  | .bool a, .bool b => a == b
  | .num a, .num b => a == b
  | .str a, .str b => a == b
  | .arr xs, .arr ys => jsonBeqList xs ys
  | .obj xs, .obj ys => jsonBeqObj xs ys
  | _, _ => false
termination_by structural j => j

def jsonBeqList : List Json → List Json → Bool
  | [], [] => true
  | x :: xs, y :: ys => jsonBeq x y && jsonBeqList xs ys
  | _, _ => false
termination_by structural l => l

def jsonBeqObj : List (String × Json) → List (String × Json) → Bool
  | [], [] => true
  | x :: xs, y :: ys => x.1 == y.1 && jsonBeq x.2 y.2 && jsonBeqObj xs ys
  | _, _ => false
termination_by structural l => l
end

mutual
theorem jsonBeq_eq : ∀ a b : Json, jsonBeq a b = true ↔ a = b
  | .null, b => by cases b <;> simp [jsonBeq]
  | .bool x, b => by cases b <;> simp [jsonBeq]
  | .num x, b => by cases b <;> simp [jsonBeq]
  | .str x, b => by cases b <;> simp [jsonBeq]
  | .arr xs, b => by
      cases b <;> simp [jsonBeq]
      exact jsonBeqList_eq xs _
  | .obj xs, b => by
      cases b <;> simp [jsonBeq]
      exact jsonBeqObj_eq xs _

theorem jsonBeqList_eq : ∀ a b : List Json, jsonBeqList a b = true ↔ a = b
  | [], b => by cases b <;> simp [jsonBeqList]
  | x :: xs, b => by
      cases b with
      | nil => simp [jsonBeqList]
      | cons y ys =>
          simp only [jsonBeqList, Bool.and_eq_true, List.cons.injEq]
          rw [jsonBeq_eq x y, jsonBeqList_eq xs ys]

theorem jsonBeqObj_eq : ∀ a b : List (String × Json), jsonBeqObj a b = true ↔ a = b
  | [], b => by cases b <;> simp [jsonBeqObj]
  | x :: xs, b => by
      cases b with
      | nil => simp [jsonBeqObj]
      | cons y ys =>
          simp only [jsonBeqObj, Bool.and_eq_true, List.cons.injEq, beq_iff_eq]
          rw [jsonBeq_eq x.2 y.2, jsonBeqObj_eq xs ys]
          constructor
          · exact fun ⟨⟨h1, h2⟩, h3⟩ => ⟨Prod.ext h1 h2, h3⟩
          · intro ⟨h, h3⟩
            cases x; cases y
            simp_all
end

instance : DecidableEq Json := fun a b =>
  decidable_of_iff (jsonBeq a b = true) (jsonBeq_eq a b)

/-- A top-level Python dict payload: keys in insertion order. -/
abbrev Doc := List (String × Json)

/-- Dictionary read `d.get(k)` / `d[k]` (first matching key). -/
def getKey (d : Doc) (k : String) : Option Json :=
  (d.find? (fun kv => kv.1 == k)).map (fun kv => kv.2)

/-- Python `k in d` on a dict. -/
def hasKey (d : Doc) (k : String) : Bool :=
  d.any (fun kv => kv.1 == k)

/-- Dictionary assignment `d[k] = v`: replaces the value in place (keeping
insertion order) when the key exists, appends otherwise. -/
def setKey (d : Doc) (k : String) (v : Json) : Doc :=
  if hasKey d k then d.map (fun kv => if kv.1 == k then (k, v) else kv)
  else d ++ [(k, v)]

/-- Character-level helper for `splitDots`. -/
def splitDotsAux : List Char → List Char → List String
  | [], acc => [String.mk acc.reverse]
  | c :: cs, acc =>
      if c == '.' then String.mk acc.reverse :: splitDotsAux cs []
      else splitDotsAux cs (c :: acc)

/-- Python `field.split('.')` (so `splitDots "" = [""]`). -/
def splitDots (s : String) : List String := splitDotsAux s.toList []

/-- Python `s.isdigit()` restricted to ASCII digits. -/
def isDigits (s : String) : Bool :=
  !s.toList.isEmpty && s.toList.all (fun c => c.isDigit)

/-- ASCII-faithful `str.lower()` (the library `String.toLower` does not reduce
in the kernel, so we map `Char.toLower` over the characters directly). -/
def strLower (s : String) : String := String.mk (s.toList.map Char.toLower)

def chPrefix : List Char → List Char → Bool
  | [], _ => true
  | _ :: _, [] => false
  | a :: as, b :: bs => a == b && chPrefix as bs

def chContains (pat : List Char) : List Char → Bool
  | [] => pat.isEmpty
  | c :: cs => chPrefix pat (c :: cs) || chContains pat cs

/-- Case-insensitive substring test: Python `pat.lower() in s.lower()`, and the
semantics of the SQL `LIKE` patterns this code builds (ASCII case folding). -/
def strContainsCI (pat s : String) : Bool :=
  chContains (strLower pat).toList (strLower s).toList

/-- SQL values as returned by `json_extract` and bound parameters. -/
inductive SqlValue where
  | null
  | int (n : Int)
  | text (s : String)
deriving Repr, DecidableEq

/-- JSON string escaping for `json.dumps` / SQLite serialization (quotes and
backslashes; other control characters do not occur in the claims). -/
def escapeJsonChar (c : Char) : String :=
  if c == '"' then "\\\"" else if c == '\\' then "\\\\" else String.singleton c

def jsonEscape (s : String) : String :=
  s.toList.foldl (fun acc c => acc ++ escapeJsonChar c) ""

mutual
/-- Minified JSON serialization, as SQLite renders arrays/objects extracted by
`json_extract`, and as `json.dumps` renders single values. -/
def jsonDump : Json → String
  | .null => "null"
  | .bool b => if b then "true" else "false"
  | .num n => toString n
  | .str s => "\"" ++ jsonEscape s ++ "\""
  | .arr xs => "[" ++ jsonDumpList xs ++ "]"
  | .obj kvs => "\x7b" ++ jsonDumpObj kvs ++ "\x7d"
termination_by structural j => j

def jsonDumpList : List Json → String
  | [] => ""
  | [x] => jsonDump x
  | x :: y :: xs => jsonDump x ++ "," ++ jsonDumpList (y :: xs)
termination_by structural l => l

def jsonDumpObj : List (String × Json) → String
  | [] => ""
  | [kv] => "\"" ++ jsonEscape kv.1 ++ "\":" ++ jsonDump kv.2
  | kv :: kv2 :: kvs =>
      "\"" ++ jsonEscape kv.1 ++ "\":" ++ jsonDump kv.2 ++ "," ++ jsonDumpObj (kv2 :: kvs)
termination_by structural l => l
end

mutual
/-- Python `repr(value)` for the values this model covers (strings get single
quotes), used by the f-string interpolation in the source. -/
def pyRepr : Json → String
  | .null => "None"
  | .bool b => if b then "True" else "False"
  | .num n => toString n
  | .str s => "\x27" ++ s ++ "\x27"
  | .arr xs => "[" ++ pyReprList xs ++ "]"
  | .obj kvs => "\x7b" ++ pyReprObj kvs ++ "\x7d"
termination_by structural j => j

def pyReprList : List Json → String
  | [] => ""
  | [x] => pyRepr x
  | x :: y :: xs => pyRepr x ++ ", " ++ pyReprList (y :: xs)
termination_by structural l => l

def pyReprObj : List (String × Json) → String
  | [] => ""
  | [kv] => "\x27" ++ kv.1 ++ "\x27: " ++ pyRepr kv.2
  | kv :: kv2 :: kvs =>
      "\x27" ++ kv.1 ++ "\x27: " ++ pyRepr kv.2 ++ ", " ++ pyReprObj (kv2 :: kvs)
termination_by structural l => l
end

/-- Python `str(value)` as used in f-strings such as `f"%{value}%"`. -/
def pyStr : Json → String
  | .str s => s
  | v => pyRepr v

/-- Value of `json_extract(data, path)` as a SQL value: JSON null and a missing
path both give SQL NULL; booleans give 1/0; arrays and objects give their
serialized text. -/
def jsonToSql : Option Json → SqlValue
  | none => .null
  | some .null => .null
  | some (.bool b) => .int (if b then 1 else 0)
  | some (.num n) => .int n
  | some (.str s) => .text s
  | some (.arr xs) => .text (jsonDump (.arr xs))
  | some (.obj kvs) => .text (jsonDump (.obj kvs))

/-- How Python's sqlite3 binds a value as a statement parameter; lists and
dicts cannot be bound (the call raises). -/
def bindParam : Json → Option SqlValue
  | .null => some .null
  | .bool b => some (.int (if b then 1 else 0))
  | .num n => some (.int n)
  | .str s => some (.text s)
  | .arr _ => none
  | .obj _ => none

/-- SQLite comparison of two non-NULL storage values: INTEGER sorts before
TEXT, values of the same class compare naturally; NULL propagates (no result).
-/
def sqlCompare : SqlValue → SqlValue → Option Ordering
  | .null, _ => none
  | _, .null => none
  | .int a, .int b => some (compare a b)
  | .int _, .text _ => some .lt
  | .text _, .int _ => some .gt
  | .text a, .text b => some (compare a b)

/-- SQL `=` (NULL never equal). -/
def sqlEq (a b : SqlValue) : Bool :=
  match a, b with
  | .int x, .int y => x == y
  | .text x, .text y => x == y
  | _, _ => false

/-- Operators of the predicate model (`QueryOperator` in the source). -/
inductive QueryOperator where
  | EQ | NE | GT | GTE | LT | LTE | IN | CONTAINS
deriving Repr, DecidableEq

/-- SQL relational comparison `a op b` (false whenever either side is NULL). -/
def sqlRel (op : QueryOperator) (a b : SqlValue) : Bool :=
  match sqlCompare a b with
  | none => false
  | some o =>
      match op with
      | .EQ => o == .eq
      | .NE => !(o == .eq)
      | .GT => o == .gt
      | .GTE => !(o == .lt)
      | .LT => o == .lt
      | .LTE => !(o == .gt)
      | _ => false

/-- SQL `x LIKE '%pat%'` over an extracted value: NULL never matches, integers
are coerced to their text form, matching is case-insensitive (ASCII). The
claims never place LIKE metacharacters inside `pat`, so `pat` is literal here.
-/
def sqlLike (pat : String) : SqlValue → Bool
  | .null => false
  | .int n => strContainsCI pat (toString n)
  | .text s => strContainsCI pat s

/-- A predicate term `(fieldPath, operator, value)`; the Python `None` query
value is `Json.null`. -/
abbrev Condition := String × QueryOperator × Json

/-- Modelled from the spec: the `Query` builder class (file `zenithdb/query.py`
is not under `src/`; only its callers are). Per the spec a Query carries "a
target collection, an ordered sequence of Conditions (conjunctive — all must
hold), ... an optional limit and skip"; its `execute` delegates to
`Database.execute_query`. Python's falsy test `if query.limit_value` means a
limit/skip of 0 behaves as unset, so 0 is the "unset" encoding here. -/
structure Query where
  collection : String := ""
  conditions : List Condition := []
  limitValue : Nat := 0
  skipValue : Nat := 0
deriving Repr, DecidableEq

/-- Modelled from the spec: `Query.where(field, op, value)` appends one
Condition to the ordered condition list. -/
def Query.whereCond (q : Query) (f : String) (op : QueryOperator) (v : Json) : Query :=
  { q with conditions := q.conditions ++ [(f, op, v)] }

/-- One row of the `documents` table (`id TEXT PRIMARY KEY, collection, data`).
-/
structure Row where
  id : String
  collection : String
  data : Doc
deriving Repr, DecidableEq

/-- One row of the `indexes` metadata table (`name TEXT PRIMARY KEY`). -/
structure IndexDef where
  name : String
  collection : String
  fields : List String
  indexType : String
  uniqueIndex : Bool
deriving Repr, DecidableEq

/-- The persistent state: the `documents` and `indexes` tables, rows in rowid
order. -/
structure Store where
  docs : List Row
  indexes : List IndexDef
deriving Repr, DecidableEq

/-- The `Database` object (`Database.__init__`, database.py:15-21): it records
`max_result_size` but, as the claims examine, `execute_query` never reads it. -/
structure Database where
  store : Store
  maxConnections : Nat := 10
  maxResultSize : Nat := 10000
  debug : Bool := false
deriving Repr, DecidableEq

/-- Errors surfacing from a call. `validationError` models the
`ValueError`/`ValidationError` raised on validator failure or id-list length
mismatch; `conflictError` a primary-key violation; `engineError` any other
exception out of the engine layer (KeyError, binding failure, ...). -/
inductive DBErr where
  | validationError
  | conflictError
  | engineError
deriving Repr, DecidableEq

deriving instance DecidableEq for Except

/-- SQLite `json_extract` traversal of a dotted path: each `.seg` step reads an
object key (SQLite's dot steps address object labels; this code never emits the
bracket form for arrays), and a missing step yields NULL. -/
def jsonExtract : Json → List String → Option Json
  | v, [] => some v
  | .obj kvs, p :: rest =>
      match getKey kvs p with
      | some c => jsonExtract c rest
      | none => none
  | _, _ :: _ => none

/-- `json_extract(data, '$.' || field)` on a document payload. -/
def extractField (d : Doc) (field : String) : Option Json :=
  jsonExtract (.obj d) (splitDots field)

/-- SQL `id = ?` against the TEXT primary key with a bound Python value
(TEXT affinity converts a numeric parameter to its text form). -/
def idMatch (rid : String) : Json → Bool
  | .str s => rid == s
  | .num n => rid == toString n
  | .bool b => rid == (if b then "1" else "0")
  | _ => false

/-- Whether `Database.execute_query` can build and bind the SQL for one
condition (database.py:183-211): a `None` value and CONTAINS always can; EQ
and the relational operators need a bindable parameter; IN has no branch there
at all, so `op_map[op]` raises KeyError. -/
def condSupported : Condition → Bool
  | (_, _, .null) => true
  | (_, .CONTAINS, _) => true
  | (_, .EQ, v) => (bindParam v).isSome
  | (_, .IN, _) => false
  | (_, _, v) => (bindParam v).isSome

/-- Evaluation of one condition by the SQL WHERE clause that
`Database.execute_query` builds (database.py:183-211). A `None` value compiles
to `json_extract IS NULL AND json_type IS NOT NULL`, i.e. the path exists and
holds an explicit null; `_id` equality goes to the primary-key column. -/
def evalCondExec (r : Row) : Condition → Bool
  | (f, _, .null) =>
      match extractField r.data f with
      | some .null => true
      | _ => false
  | (f, .CONTAINS, v) => sqlLike (pyStr v) (jsonToSql (extractField r.data f))
  | (f, .EQ, v) =>
      if f == "_id" then idMatch r.id v
      else
        match bindParam v with
        | some p => sqlEq (jsonToSql (extractField r.data f)) p
        | none => false
  | (f, op, v) =>
      match bindParam v with
      | some p => sqlRel op (jsonToSql (extractField r.data f)) p
      | none => false

/-- `Database.execute_query` (database.py:174-237): AND of the collection
condition and the query's conditions, then `LIMIT (limit_value or 10000)`
and `OFFSET (skip_value or 0)`, streaming the decoded payloads in order.
Note the default limit is the literal 10000, not `max_result_size`. -/
def executeQuery (s : Store) (q : Query) : Except DBErr (List Doc) :=
  if q.conditions.all condSupported then
    let rows := s.docs.filter
      (fun r => r.collection == q.collection && q.conditions.all (evalCondExec r))
    let lim := if q.limitValue == 0 then 10000 else q.limitValue
    .ok (((rows.drop q.skipValue).take lim).map (fun r => r.data))
  else .error .engineError

/-- `Database.execute_query` as a method of the `Database` object: the stored
`max_result_size` is never consulted. -/
def dbExecuteQuery (db : Database) (q : Query) : Except DBErr (List Doc) :=
  executeQuery db.store q

/-- A dictionary query value: either a plain value (equality) or a nested
operator mapping such as `{"$gt": 5}` (`isinstance(value, dict)` in the
source). -/
inductive QVal where
  | val (v : Json)
  | ops (l : List (String × Json))
deriving Repr, DecidableEq

/-- A dictionary query / filter, keys in insertion order. -/
abbrev DictQuery := List (String × QVal)

/-- Dictionary read `query[field]`. -/
def lookupQ (q : DictQuery) (f : String) : Option QVal :=
  (q.find? (fun kv => kv.1 == f)).map (fun kv => kv.2)

/-- Python `field in query` on a dict query. -/
def qHasKey (q : DictQuery) (f : String) : Bool :=
  q.any (fun kv => kv.1 == f)

/-- Python `op.lstrip("$")`. -/
def stripDollars (s : String) : String :=
  String.mk (s.toList.dropWhile (fun c => c == '$'))

/-- The operator tokens `Collection.find` dispatches on (collection.py:155-173);
any other token falls off the `elif` chain and is silently dropped. -/
def opFromToken (t : String) : Option QueryOperator :=
  if t == "gt" then some .GT
  else if t == "gte" then some .GTE
  else if t == "lt" then some .LT
  else if t == "lte" then some .LTE
  else if t == "ne" then some .NE
  else if t == "in" then some .IN
  else if t == "contains" then some .CONTAINS
  else none

/-- The wildcard full-text special case test of `Collection.find`
(collection.py:116): exactly one key, it is `"*"`, its value is an operator
dict containing `"$contains"`. -/
def isWildcardQuery (q : DictQuery) : Bool :=
  match q with
  | [(f, QVal.ops l)] => f == "*" && l.any (fun kv => kv.1 == "$contains")
  | _ => false

/-- The search term `query["*"]["$contains"]`. -/
def wildcardTerm (q : DictQuery) : Option Json :=
  match q with
  | [(_, QVal.ops l)] => ((l.find? (fun kv => kv.1 == "$contains")).map (fun kv => kv.2))
  | _ => none

mutual
/-- `search_value(value, term)` of `Collection.find` (collection.py:121-131):
case-insensitive substring over strings, over `str(value)` for numbers (and
booleans, which are `int` instances in Python), recursing through mappings and
sequences; anything else never matches. -/
def searchValue (t : String) : Json → Bool
  | .null => false
  | .bool b => strContainsCI t (if b then "True" else "False")
  | .num n => strContainsCI t (toString n)
  | .str s => strContainsCI t s
  | .arr xs => searchList t xs
  | .obj kvs => searchObj t kvs
termination_by structural j => j

def searchList (t : String) : List Json → Bool
  | [] => false
  | x :: xs => searchValue t x || searchList t xs
termination_by structural l => l

def searchObj (t : String) : List (String × Json) → Bool
  | [] => false
  | kv :: kvs => searchValue t kv.2 || searchObj t kvs
termination_by structural l => l
end

/-- `any(search_value(value, search_term) for value in doc.values())`
(collection.py:134-137). -/
def searchDoc (t : String) (d : Doc) : Bool := searchObj t d

/-- `Database.list_indexes(collection)` (database.py:110-125). -/
def listIndexes (s : Store) (coll : String) : List IndexDef :=
  s.indexes.filter (fun ix => ix.collection == coll)

/-- The planner's `sorted_fields` accumulation (collection.py:141-150): walk
the declared indexes in storage order and, for each index field that occurs in
the query and was not collected yet, append it. -/
def plannerSorted (indexes : List IndexDef) (q : DictQuery) : List String :=
  indexes.foldl
    (fun acc idx =>
      idx.fields.foldl
        (fun acc2 f =>
          if qHasKey q f && !(acc2.contains f) then acc2 ++ [f] else acc2)
        acc)
    []

/-- `sorted_fields.extend(remaining_fields)` (collection.py:152-153): the
index-covered fields first, then the other query keys in original order. -/
def plannedFields (indexes : List IndexDef) (q : DictQuery) : List String :=
  let sorted := plannerSorted indexes q
  sorted ++ (q.map Prod.fst).filter (fun f => !(sorted.contains f))

/-- The conditions `Collection.find` appends for one field of a dict query
(collection.py:155-175): a plain value becomes EQ, an operator dict contributes
one condition per recognised token and silently drops the rest. -/
def condsForField (q : DictQuery) (f : String) : List Condition :=
  match lookupQ q f with
  | some (QVal.val v) => [(f, QueryOperator.EQ, v)]
  | some (QVal.ops l) =>
      l.filterMap (fun kv => (opFromToken (stripDollars kv.1)).map (fun o => (f, o, kv.2)))
  | none => []

/-- All conditions of a dict query, visiting the fields in the given order. -/
def buildConds (q : DictQuery) (fields : List String) : List Condition :=
  fields.flatMap (condsForField q)

/-- `Collection.find` on a dict query (collection.py:107-177): the wildcard
`$contains` query fetches the collection (a conditionless `execute`) and
filters it by the recursive scan; any other dict is compiled to conditions in
planner order and executed. A non-string wildcard term makes `term.lower()`
raise. -/
def findDict (s : Store) (coll : String) (q : DictQuery) : Except DBErr (List Doc) :=
  if isWildcardQuery q then
    match wildcardTerm q with
    | some (.str t) =>
        match executeQuery s { collection := coll } with
        | .ok allDocs => .ok (allDocs.filter (fun d => searchDoc t d))
        | .error e => .error e
    | _ => .error .engineError
  else
    executeQuery s
      { collection := coll
        conditions := buildConds q (plannedFields (listIndexes s coll) q) }

/-- Spec-side reference for C6: the same dict query compiled with its
conditions in the original dictionary key order, skipping the planner's
reordering. -/
def findInOriginalOrder (s : Store) (coll : String) (q : DictQuery) : Except DBErr (List Doc) :=
  executeQuery s { collection := coll, conditions := buildConds q (q.map Prod.fst) }

/-- The conditions `Collection.find_one` builds from a dict query
(collection.py:197-214): only `gte`, `lte`, `in`, `contains` are dispatched;
every other operator token — recognised elsewhere or not — falls to the `else`
branch and becomes an equality test. -/
def findOneConds (q : DictQuery) : List Condition :=
  q.flatMap (fun kv =>
    match kv.2 with
    | QVal.val v => [(kv.1, QueryOperator.EQ, v)]
    | QVal.ops l =>
        l.map (fun ov =>
          let t := stripDollars ov.1
          if t == "gte" then (kv.1, QueryOperator.GTE, ov.2)
          else if t == "lte" then (kv.1, QueryOperator.LTE, ov.2)
          else if t == "in" then (kv.1, QueryOperator.IN, ov.2)
          else if t == "contains" then (kv.1, QueryOperator.CONTAINS, ov.2)
          else (kv.1, QueryOperator.EQ, ov.2)))

/-- `Collection.find_one` on a dict query (collection.py:189-217): compile the
conditions, limit to 1, return the first result if any. -/
def findOneDict (s : Store) (coll : String) (q : DictQuery) : Except DBErr (Option Doc) :=
  match executeQuery s { collection := coll, conditions := findOneConds q, limitValue := 1 } with
  | .ok docs => .ok docs.head?
  | .error e => .error e

/-- The operator tokens `Collection.count` recognises (collection.py:294-305);
plain values become EQ, unknown tokens are dropped. -/
def countOpFromToken (t : String) : Option QueryOperator :=
  if t == "gt" then some .GT
  else if t == "lt" then some .LT
  else if t == "gte" then some .GTE
  else if t == "lte" then some .LTE
  else if t == "ne" then some .NE
  else if t == "in" then some .IN
  else if t == "contains" then some .CONTAINS
  else none

/-- All conditions `Collection.count` builds from a dict filter, in original
key order. -/
def countConds (q : DictQuery) : List Condition :=
  q.flatMap (fun kv =>
    match kv.2 with
    | QVal.val v => [(kv.1, QueryOperator.EQ, v)]
    | QVal.ops l =>
        l.filterMap (fun ov =>
          (countOpFromToken (stripDollars ov.1)).map (fun o => (kv.1, o, ov.2))))

/-- Whether `Collection.count` can build and bind the SQL for one condition
(collection.py:313-336): IN iterates its value for parameters (a list of
bindable elements, or a string — Python iterates its characters). -/
def countCondSupported : Condition → Bool
  | (_, _, .null) => true
  | (_, .CONTAINS, _) => true
  | (_, .IN, .arr xs) => xs.all (fun x => (bindParam x).isSome)
  | (_, .IN, .str _) => true
  | (_, .IN, _) => false
  | (_, _, v) => (bindParam v).isSome

/-- Evaluation of one condition by the count SQL (collection.py:313-336).
Unlike `execute_query`, a `None` value compiles to `json_extract IS NULL`
alone — with no `json_type` existence check — so it also holds when the field
path is absent; and `_id` gets no primary-key special case. -/
def countCondEval (r : Row) : Condition → Bool
  | (f, _, .null) =>
      match extractField r.data f with
      | none => true
      | some .null => true
      | some _ => false
  | (f, .CONTAINS, v) => sqlLike (pyStr v) (jsonToSql (extractField r.data f))
  | (f, .IN, v) =>
      let params :=
        match v with
        | .arr xs => xs.filterMap bindParam
        | .str s => s.toList.map (fun c => SqlValue.text (String.singleton c))
        | _ => []
      params.any (fun p => sqlEq (jsonToSql (extractField r.data f)) p)
  | (f, op, v) =>
      match bindParam v with
      | some p => sqlRel op (jsonToSql (extractField r.data f)) p
      | none => false

/-- `Collection.count` (collection.py:274-344): a bare `COUNT(*)` without a
filter, otherwise a count under the conjunction of the compiled conditions. -/
def countDict (s : Store) (coll : String) (filterQ : Option DictQuery) : Except DBErr Nat :=
  match filterQ with
  | none => .ok ((s.docs.filter (fun r => r.collection == coll)).length)
  | some q =>
      let conds := countConds q
      if conds.all countCondSupported then
        .ok ((s.docs.filter
          (fun r => r.collection == coll && conds.all (countCondEval r))).length)
      else .error .engineError

/-- Duplicate test on the generated/supplied id list (a duplicate violates the
`documents` primary key during `executemany`). -/
def hasDup : List String → Bool
  | [] => false
  | x :: xs => xs.contains x || hasDup xs

/-- The row `bulk_insert` writes for one document: the payload is stamped with
its identifier first (`doc['_id'] = doc_id`, operations.py:55-56). -/
def stampRow (coll : String) (d : Doc) (i : String) : Row :=
  ⟨i, coll, setKey d "_id" (.str i)⟩

/-- `BulkOperations.bulk_insert` (operations.py:44-74) under an active
transaction. Result: the store after the call, the caller's document objects
after the call (the stamping mutates them in place), and the returned id list
or the raised error. A supplied id list of the wrong length raises before
stamping; a primary-key conflict (duplicate or non-fresh id) aborts the
transaction, leaving the store unchanged but the payloads already stamped. -/
def bulkInsert (s : Store) (coll : String) (docs : List Doc) (ids : List String) :
    Store × List Doc × Except DBErr (List String) :=
  if ids.length != docs.length then (s, docs, .error .validationError)
  else
    let rows := List.zipWith (stampRow coll) docs ids
    let stamped := rows.map (fun r => r.data)
    if hasDup ids || ids.any (fun i => s.docs.any (fun r => r.id == i)) then
      (s, stamped, .error .conflictError)
    else
      ({ s with docs := s.docs ++ rows }, stamped, .ok ids)

/-- `Collection.insert_many` (collection.py:97-105): when a validator is set,
every document is checked before any write; the first failure raises
`ValueError("Document failed validation")` with nothing written. The `ids`
parameter carries the `uuid4` identifiers `bulk_insert` would generate. -/
def insertMany (s : Store) (coll : String) (validator : Option (Doc → Bool))
    (docs : List Doc) (ids : List String) :
    Store × List Doc × Except DBErr (List String) :=
  match validator with
  | some v =>
      if docs.all v then bulkInsert s coll docs ids
      else (s, docs, .error .validationError)
  | none => bulkInsert s coll docs ids

/-- `Database.insert` (database.py:134-138): a single-document `bulk_insert`;
`id` is the supplied `doc_id` or the generated `uuid4`. -/
def dbInsert (s : Store) (coll : String) (d : Doc) (id : String) :
    Store × List Doc × Except DBErr (List String) :=
  bulkInsert s coll [d] [id]

/-- Python `field.replace('.', '_')` (single-character replacement). -/
def dotToUnderscore (f : String) : String :=
  String.mk (f.toList.map (fun c => if c == '.' then '_' else c))

/-- The deterministic index name `f"idx_{collection}_{'_'.join(safe_fields)}"`
(database.py:76-78). -/
def indexName (coll : String) (fields : List String) : String :=
  "idx_" ++ coll ++ "_" ++ String.intercalate "_" (fields.map dotToUnderscore)

/-- `Database.create_index` (database.py:70-108): derive the name and
`INSERT OR REPLACE` the metadata row keyed on the name (SQLite's REPLACE
deletes the conflicting row and appends the new one). The physical expression
index is engine state outside this model. -/
def createIndex (s : Store) (coll : String) (fields : List String)
    (indexType : String) (uniqueIndex : Bool) : Store × String :=
  let nm := indexName coll fields
  ({ s with indexes :=
      s.indexes.filter (fun e => !(e.name == nm)) ++
        [⟨nm, coll, fields, indexType, uniqueIndex⟩] }, nm)

/-- Python `int(s)` on a digit string (kernel-computable). -/
def strToNat (s : String) : Nat :=
  s.toList.foldl (fun acc c => acc * 10 + (c.toNat - 48)) 0

/-- Parameter binding in `Database.update`'s WHERE builder (database.py:309,
327-331): `json.dumps(val) if isinstance(val, str) else val` — note strings are
bound JSON-quoted. -/
def updParam (v : Json) : Option SqlValue :=
  match v with
  | .str s => some (.text (jsonDump (.str s)))
  | v2 => bindParam v2

/-- Python `json.dumps(val)[1:-1]` (strip the first and last character). -/
def pyStrip1 (s : String) : String :=
  String.mk ((s.toList.drop 1).dropLast)

/-- Python `'.' in field`. -/
def strHasDot (s : String) : Bool := s.toList.any (fun c => c == '.')

/-- The relational tokens of `Database.update`'s WHERE builder
(database.py:306-309). -/
def updRelOp (t : String) : Option QueryOperator :=
  if t == "gt" then some .GT
  else if t == "lt" then some .LT
  else if t == "gte" then some .GTE
  else if t == "lte" then some .LTE
  else if t == "ne" then some .NE
  else none

/-- Whether `Database.update` can build and bind the SQL for one query entry
(database.py:297-331): `_id` takes the raw value as a primary-key parameter
(an operator dict there cannot be bound); IN subscripts and iterates its value;
unrecognised operator tokens are dropped silently. -/
def updCondSupported (kv : String × QVal) : Bool :=
  if kv.1 == "_id" then
    match kv.2 with
    | QVal.val v => (bindParam v).isSome
    | QVal.ops _ => false
  else
    match kv.2 with
    | QVal.val v => (updParam v).isSome
    | QVal.ops l =>
        l.all (fun ov =>
          let t := stripDollars ov.1
          if (updRelOp t).isSome then (updParam ov.2).isSome
          else if t == "in" then
            if strHasDot kv.1 then
              match ov.2 with
              | .arr xs => xs.all (fun x => (updParam x).isSome)
              | .str _ => true
              | _ => false
            else
              match ov.2 with
              | .arr (_ :: _) => true
              | .str s => !s.toList.isEmpty
              | _ => false
          else true)

/-- Evaluation of one query entry by `Database.update`'s WHERE clause
(database.py:297-331). Strings on the non-`_id` paths are compared in their
`json.dumps` quoted form (they were bound that way); the non-dotted IN and the
CONTAINS branches build `LIKE '%' || dumps[1:-1] || '%'` patterns. -/
def updCondEval (r : Row) (kv : String × QVal) : Bool :=
  if kv.1 == "_id" then
    match kv.2 with
    | QVal.val v => idMatch r.id v
    | QVal.ops _ => false
  else
    match kv.2 with
    | QVal.val v =>
        match updParam v with
        | some p => sqlEq (jsonToSql (extractField r.data kv.1)) p
        | none => false
    | QVal.ops l =>
        l.all (fun ov =>
          let t := stripDollars ov.1
          match updRelOp t with
          | some op =>
              match updParam ov.2 with
              | some p => sqlRel op (jsonToSql (extractField r.data kv.1)) p
              | none => false
          | none =>
            if t == "in" then
              if strHasDot kv.1 then
                let params :=
                  match ov.2 with
                  | .arr xs => xs.filterMap updParam
                  | .str s => s.toList.map (fun c => SqlValue.text (jsonDump (.str (String.singleton c))))
                  | _ => []
                params.any (fun p => sqlEq (jsonToSql (extractField r.data kv.1)) p)
              else
                match ov.2 with
                | .arr (x :: _) => sqlLike (pyStrip1 (jsonDump x)) (jsonToSql (extractField r.data kv.1))
                | .str s =>
                    match s.toList with
                    | c :: _ => sqlLike (pyStrip1 (jsonDump (.str (String.singleton c)))) (jsonToSql (extractField r.data kv.1))
                    | [] => false
                | _ => false
            else if t == "contains" then
              sqlLike (pyStrip1 (jsonDump ov.2)) (jsonToSql (extractField r.data kv.1))
            else true)

/-- The nested `$set` walk of `Database.update` (database.py:347-361) as a pure
transformation. Walking `parts[:-1]`, a missing key creates an intermediate
`{}`; a non-mapping intermediate makes the Python subscripting raise (`none`).
At the last segment: a mapping gets the key set; a non-empty array with a
numeric segment gets that index replaced in place (out of range raises);
anything else raises. -/
def setPathAux : Json → List String → Json → Option Json
  | current, [last], v =>
      match current with
      | .obj kvs => some (.obj (setKey kvs last v))
      | .arr xs =>
          if !xs.isEmpty && isDigits last then
            let i := strToNat last
            if i < xs.length then some (.arr (xs.set i v)) else none
          else none
      | _ => none
  | current, p :: p2 :: rest, v =>
      match current with
      | .obj kvs =>
          match setPathAux ((getKey kvs p).getD (.obj [])) (p2 :: rest) v with
          | some c => some (.obj (setKey kvs p c))
          | none => none
      | _ => none
  | _, [], _ => none

/-- One `$set` entry applied to a payload: `parts = field.split('.')` then the
walk above, starting at the document mapping. -/
def applySet (d : Doc) (field : String) (v : Json) : Option Doc :=
  match setPathAux (.obj d) (splitDots field) v with
  | some (.obj kvs) => some kvs
  | _ => none

/-- The per-document update application (database.py:347-363): with a `$set`
key, each target path is applied in order; otherwise `doc.update(update)`
merges the given top-level keys. -/
def applyUpdate (d : Doc) (upd : Doc) : Option Doc :=
  match getKey upd "$set" with
  | some (.obj sets) => sets.foldlM (fun acc kv => applySet acc kv.1 kv.2) d
  | some _ => none
  | none => some (upd.foldl (fun acc kv => setKey acc kv.1 kv.2) d)

/-- `Database.update` (database.py:291-372): select the matching rows of the
collection, apply the update to each payload, write the new payloads back and
return how many rows were updated. An exception while patching any document
aborts the whole call before the commit (`none`). -/
def dbUpdate (s : Store) (coll : String) (q : DictQuery) (upd : Doc) :
    Option (Store × Nat) :=
  if q.all updCondSupported then
    let matched := fun r => q.all (updCondEval r) && r.collection == coll
    match s.docs.mapM (fun r =>
        if matched r then
          (applyUpdate r.data upd).map (fun d2 => Row.mk r.id r.collection d2)
        else some r) with
    | some newRows => some ({ s with docs := newRows }, (s.docs.filter matched).length)
    | none => none
  else none

/-! Helper lemmas about dictionary operations. -/

theorem getKey_cons (k1 : String) (v1 : Json) (tl : Doc) (k : String) :
    getKey ((k1, v1) :: tl) k = if k1 == k then some v1 else getKey tl k := by
  by_cases h : (k1 == k) = true <;> simp [getKey, List.find?_cons, h]

theorem hasKey_cons (k1 : String) (v1 : Json) (tl : Doc) (k : String) :
    hasKey ((k1, v1) :: tl) k = ((k1 == k) || hasKey tl k) := by
  simp [hasKey, List.any_cons]

theorem getKey_eq_none_iff (d : Doc) (k : String) :
    getKey d k = none ↔ hasKey d k = false := by
  simp [getKey, hasKey, List.find?_eq_none, List.any_eq_false]

theorem getKey_setKey_same (d : Doc) (k : String) (v : Json) :
    getKey (setKey d k v) k = some v := by
  unfold setKey
  by_cases h : hasKey d k = true
  · rw [if_pos h]
    induction d with
    | nil => simp [hasKey] at h
    | cons kv tl ih =>
        obtain ⟨k1, v1⟩ := kv
        by_cases hk : k1 = k
        · subst hk
          simp only [List.map_cons, beq_self_eq_true, if_true, getKey_cons]
        · have hkb : (k1 == k) = false := by simpa using hk
          have h' : hasKey tl k = true := by
            rw [hasKey_cons, hkb, Bool.false_or] at h
            exact h
          simp only [List.map_cons, hkb, Bool.false_eq_true, if_false, getKey_cons]
          exact ih h'
  · rw [if_neg h]
    induction d with
    | nil => simp [getKey_cons]
    | cons kv tl ih =>
        obtain ⟨k1, v1⟩ := kv
        rw [hasKey_cons, Bool.or_eq_true, not_or] at h
        have hkb : (k1 == k) = false := by
          rcases hkk : k1 == k
          · rfl
          · exact absurd hkk h.1
        have h' : ¬(hasKey tl k = true) := h.2
        simp only [List.cons_append, getKey_cons, hkb, Bool.false_eq_true, if_false]
        exact ih h'

theorem getKey_setKey_ne (d : Doc) (k k2 : String) (v : Json) (h : k2 ≠ k) :
    getKey (setKey d k v) k2 = getKey d k2 := by
  unfold setKey
  have hkk2 : (k == k2) = false := by
    rcases hkk : k == k2
    · rfl
    · have he : k = k2 := by simpa using hkk
      exact absurd he.symm h
  by_cases hh : hasKey d k = true
  · rw [if_pos hh]
    clear hh
    induction d with
    | nil => simp
    | cons kv tl ih =>
        obtain ⟨k1, v1⟩ := kv
        by_cases hk : k1 = k
        · subst hk
          simp only [List.map_cons, beq_self_eq_true, if_true, getKey_cons, hkk2,
            Bool.false_eq_true, if_false]
          exact ih
        · have hkb : (k1 == k) = false := by simpa using hk
          simp only [List.map_cons, hkb, Bool.false_eq_true, if_false, getKey_cons]
          by_cases hk2 : (k1 == k2) = true
          · rw [if_pos hk2, if_pos hk2]
          · rw [if_neg hk2, if_neg hk2]
            exact ih
  · rw [if_neg hh]
    induction d with
    | nil => simp [getKey_cons, hkk2]
    | cons kv tl ih =>
        obtain ⟨k1, v1⟩ := kv
        rw [hasKey_cons, Bool.or_eq_true, not_or] at hh
        simp only [List.cons_append, getKey_cons]
        by_cases hk2 : (k1 == k2) = true
        · rw [if_pos hk2, if_pos hk2]
        · rw [if_neg hk2, if_neg hk2]
          exact ih hh.2

theorem setKey_of_getKey_none (d : Doc) (k : String) (v : Json)
    (h : getKey d k = none) : setKey d k v = d ++ [(k, v)] := by
  unfold setKey
  rw [(getKey_eq_none_iff d k).mp h]
  simp

/-! Helper lemmas for the planner reordering (C6). -/

theorem contains_eq_true_iff (l : List String) (x : String) :
    l.contains x = true ↔ x ∈ l := List.elem_iff

theorem qHasKey_iff_mem (q : DictQuery) (x : String) :
    qHasKey q x = true ↔ x ∈ q.map Prod.fst := by
  simp only [qHasKey, List.any_eq_true, List.mem_map, beq_iff_eq]

theorem mem_plannerStep (q : DictQuery) (fs : List String) :
    ∀ (acc : List String) (x : String),
      (x ∈ fs.foldl
        (fun acc2 f => if qHasKey q f && !(acc2.contains f) then acc2 ++ [f] else acc2)
        acc ↔ x ∈ acc ∨ (x ∈ fs ∧ qHasKey q x = true)) := by
  induction fs with
  | nil => simp
  | cons f rest ih =>
      intro acc x
      rw [List.foldl_cons, ih]
      have hstep : (x ∈ (if qHasKey q f && !(acc.contains f) then acc ++ [f] else acc) ↔
          x ∈ acc ∨ (x = f ∧ qHasKey q f = true)) := by
        rcases hq : qHasKey q f with _ | _
        · simp [hq]
        · rcases hc : acc.contains f with _ | _
          · simp only [hq, hc, Bool.not_false, Bool.and_self, if_true, List.mem_append,
              List.mem_singleton, and_true]
          · have hf : f ∈ acc := (contains_eq_true_iff acc f).mp hc
            simp only [hq, hc, Bool.not_true, Bool.and_false, Bool.false_eq_true, if_false,
              and_true]
            constructor
            · exact Or.inl
            · rintro (hx | rfl)
              · exact hx
              · exact hf
      rw [hstep]
      constructor
      · rintro (h | h)
        · rcases h with h | h
          · exact Or.inl h
          · exact Or.inr ⟨by simp [h.1], h.1 ▸ h.2⟩
        · exact Or.inr ⟨List.mem_cons_of_mem _ h.1, h.2⟩
      · rintro (h | h)
        · exact Or.inl (Or.inl h)
        · rcases List.mem_cons.mp h.1 with rfl | hm
          · exact Or.inl (Or.inr ⟨rfl, h.2⟩)
          · exact Or.inr ⟨hm, h.2⟩

theorem mem_plannerFold (q : DictQuery) :
    ∀ (ixs : List IndexDef) (acc : List String),
      (∀ y ∈ acc, qHasKey q y = true) →
      ∀ x ∈ ixs.foldl
        (fun acc idx => idx.fields.foldl
          (fun acc2 f => if qHasKey q f && !(acc2.contains f) then acc2 ++ [f] else acc2) acc)
        acc, qHasKey q x = true := by
  intro ixs
  induction ixs with
  | nil =>
      intro acc hacc x hx
      exact hacc x (by simpa using hx)
  | cons ix rest ih =>
      intro acc hacc x hx
      rw [List.foldl_cons] at hx
      refine ih _ ?_ x hx
      intro y hy
      rcases (mem_plannerStep q ix.fields acc y).mp hy with h | h
      · exact hacc y h
      · exact h.2

theorem mem_plannerSorted (ixs : List IndexDef) (q : DictQuery) (x : String) :
    x ∈ plannerSorted ixs q → qHasKey q x = true := by
  intro hx
  exact mem_plannerFold q ixs [] (by simp) x hx

theorem mem_plannedFields (ixs : List IndexDef) (q : DictQuery) (x : String) :
    x ∈ plannedFields ixs q ↔ x ∈ q.map Prod.fst := by
  unfold plannedFields
  constructor
  · intro hx
    rcases List.mem_append.mp hx with h | h
    · exact (qHasKey_iff_mem q x).mp (mem_plannerSorted ixs q x h)
    · exact (List.mem_filter.mp h).1
  · intro hx
    by_cases hc : (plannerSorted ixs q).contains x = true
    · exact List.mem_append.mpr (Or.inl ((contains_eq_true_iff _ x).mp hc))
    · refine List.mem_append.mpr (Or.inr ?_)
      refine List.mem_filter.mpr ⟨hx, ?_⟩
      simpa using hc

theorem buildConds_all (q : DictQuery) (l : List String) (p : Condition → Bool) :
    (buildConds q l).all p = true ↔
      ∀ f ∈ l, (condsForField q f).all p = true := by
  simp only [buildConds, List.all_eq_true, List.mem_flatMap]
  constructor
  · intro h f hf c hc
    exact h c ⟨f, hf, hc⟩
  · rintro h c ⟨f, hf, hc⟩
    exact h f hf c hc

theorem buildConds_all_congr (q : DictQuery) (l1 l2 : List String)
    (hmem : ∀ x, x ∈ l1 ↔ x ∈ l2) (p : Condition → Bool) :
    (buildConds q l1).all p = (buildConds q l2).all p := by
  rw [Bool.eq_iff_iff, buildConds_all, buildConds_all]
  constructor
  · intro h f hf
    exact h f ((hmem f).mpr hf)
  · intro h f hf
    exact h f ((hmem f).mp hf)

theorem executeQuery_conds_congr (s : Store) (coll : String) (c1 c2 : List Condition)
    (lim skip : Nat) (h : ∀ p : Condition → Bool, c1.all p = c2.all p) :
    executeQuery s ⟨coll, c1, lim, skip⟩ = executeQuery s ⟨coll, c2, lim, skip⟩ := by
  unfold executeQuery
  simp only
  rw [h condSupported]
  by_cases hs : c2.all condSupported = true
  · rw [if_pos hs, if_pos hs]
    have hfilter : s.docs.filter (fun r => r.collection == coll && c1.all (evalCondExec r)) =
        s.docs.filter (fun r => r.collection == coll && c2.all (evalCondExec r)) := by
      apply List.filter_congr
      intro r _
      rw [h (evalCondExec r)]
    rw [hfilter]
  · rw [if_neg hs, if_neg hs]

theorem findDict_eq_originalOrder (s : Store) (coll : String) (q : DictQuery)
    (hw : isWildcardQuery q = false) :
    findDict s coll q = findInOriginalOrder s coll q := by
  unfold findDict findInOriginalOrder
  rw [hw]
  simp only [Bool.false_eq_true, if_false]
  exact executeQuery_conds_congr s coll _ _ 0 0
    (buildConds_all_congr q _ _ (mem_plannedFields (listIndexes s coll) q))

/-! Helper lemmas for insert and fetch-by-identifier (C1, C5, C10). -/

theorem evalCondExec_id (r : Row) (i : String) :
    evalCondExec r ("_id", QueryOperator.EQ, Json.str i) = (r.id == i) := by
  simp [evalCondExec, idMatch, bindParam]

theorem head?_take_one_map {α β : Type} (f : α → β) (l : List α) :
    ((l.take 1).map f).head? = l.head?.map f := by
  cases l <;> simp

theorem findOneDict_id_eq (st : Store) (coll i : String) :
    findOneDict st coll [("_id", QVal.val (.str i))] =
      .ok (((st.docs.filter (fun r => r.collection == coll && r.id == i)).head?).map
        (fun r => r.data)) := by
  unfold findOneDict
  have hconds : findOneConds [("_id", QVal.val (.str i))] =
      [("_id", QueryOperator.EQ, Json.str i)] := rfl
  rw [hconds]
  unfold executeQuery
  have hsup : ([("_id", QueryOperator.EQ, Json.str i)] : List Condition).all condSupported =
      true := rfl
  rw [hsup]
  simp only [if_true]
  have hfilter : st.docs.filter
      (fun r => r.collection == coll &&
        ([("_id", QueryOperator.EQ, Json.str i)] : List Condition).all (evalCondExec r)) =
      st.docs.filter (fun r => r.collection == coll && r.id == i) := by
    apply List.filter_congr
    intro r _
    simp [evalCondExec_id]
  rw [hfilter]
  simp only [List.drop_zero]
  rw [show (if (1 : Nat) == 0 then 10000 else 1) = 1 from rfl]
  rw [head?_take_one_map]

theorem hasDup_eq_false_of_nodup : ∀ (l : List String), l.Nodup → hasDup l = false := by
  intro l h
  induction l with
  | nil => rfl
  | cons x xs ih =>
      rw [List.nodup_cons] at h
      have hc : xs.contains x = false := by
        rcases hx : xs.contains x
        · rfl
        · exact absurd ((contains_eq_true_iff xs x).mp hx) h.1
      simp only [hasDup, hc, ih h.2, Bool.or_self]

theorem bulkInsert_components (s : Store) (coll : String) (docs : List Doc)
    (ids : List String) (hlen : ids.length = docs.length) (hnd : ids.Nodup)
    (hfresh : ∀ i ∈ ids, ∀ r ∈ s.docs, r.id ≠ i) :
    bulkInsert s coll docs ids =
      ({ s with docs := s.docs ++ List.zipWith (stampRow coll) docs ids },
       (List.zipWith (stampRow coll) docs ids).map (fun r => r.data),
       .ok ids) := by
  unfold bulkInsert
  have h1 : (ids.length != docs.length) = false := by simp [hlen]
  rw [h1]
  have h2 : hasDup ids = false := hasDup_eq_false_of_nodup ids hnd
  have h3 : ids.any (fun i => s.docs.any (fun r => r.id == i)) = false := by
    rw [List.any_eq_false]
    intro i hi
    simp only [Bool.not_eq_true, List.any_eq_false]
    intro r hr
    simpa using hfresh i hi r hr
  simp [h2, h3]

theorem filter_zipWith_not_mem (coll i : String) :
    ∀ (docs : List Doc) (ids : List String), i ∉ ids →
      (List.zipWith (stampRow coll) docs ids).filter
        (fun r => r.collection == coll && r.id == i) = [] := by
  intro docs
  induction docs with
  | nil => intro ids _; simp
  | cons d ds ih =>
      intro ids hi
      cases ids with
      | nil => simp
      | cons j js =>
          rw [List.mem_cons, not_or] at hi
          have hj : ((stampRow coll d j).id == i) = false := by
            simp only [stampRow]
            rcases hx : j == i
            · rfl
            · have he : j = i := by simpa using hx
              exact absurd he.symm hi.1
          simp only [List.zipWith_cons_cons, List.filter_cons, hj, Bool.and_false,
            Bool.false_eq_true, if_false]
          exact ih js hi.2

theorem filter_zipWith_at (coll i : String) :
    ∀ (docs : List Doc) (ids : List String) (k : Nat) (d : Doc), ids.Nodup →
      docs[k]? = some d → ids[k]? = some i →
      (List.zipWith (stampRow coll) docs ids).filter
        (fun r => r.collection == coll && r.id == i) = [stampRow coll d i] := by
  intro docs
  induction docs with
  | nil => intro ids k d _ hd _; simp at hd
  | cons d0 ds ih =>
      intro ids k d hnd hd hi
      cases ids with
      | nil => simp at hi
      | cons j js =>
          rw [List.nodup_cons] at hnd
          cases k with
          | zero =>
              simp only [List.getElem?_cons_zero, Option.some.injEq] at hd hi
              obtain rfl : d = d0 := hd.symm
              obtain rfl : i = j := hi.symm
              simp only [List.zipWith_cons_cons, List.filter_cons]
              have hhead : ((stampRow coll d i).collection == coll &&
                  ((stampRow coll d i).id == i)) = true := by simp [stampRow]
              rw [hhead]
              simp only [if_true]
              rw [filter_zipWith_not_mem coll i ds js hnd.1]
          | succ k2 =>
              simp only [List.getElem?_cons_succ] at hd hi
              have hji : (j == i) = false := by
                rcases hx : j == i
                · rfl
                · have : j = i := by simpa using hx
                  subst this
                  exact absurd (List.getElem?_mem hi) hnd.1
              simp only [List.zipWith_cons_cons, List.filter_cons, stampRow, hji,
                Bool.and_false, Bool.false_eq_true, if_false]
              exact ih js k2 d hnd.2 hd hi

theorem filter_fresh_nil (s : Store) (coll i : String)
    (hfresh : ∀ r ∈ s.docs, r.id ≠ i) :
    s.docs.filter (fun r => r.collection == coll && r.id == i) = [] := by
  rw [List.filter_eq_nil_iff]
  intro r hr
  have : (r.id == i) = false := by
    rcases hx : r.id == i
    · rfl
    · exact absurd (by simpa using hx) (hfresh r hr)
  simp [this]

theorem zipWith_getElem?_of (coll : String) :
    ∀ (docs : List Doc) (ids : List String) (k : Nat) (d : Doc) (i : String),
      docs[k]? = some d → ids[k]? = some i →
      (List.zipWith (stampRow coll) docs ids)[k]? = some (stampRow coll d i) := by
  intro docs
  induction docs with
  | nil => intro ids k d i hd _; simp at hd
  | cons d0 ds ih =>
      intro ids k d i hd hi
      cases ids with
      | nil => simp at hi
      | cons j js =>
          cases k with
          | zero =>
              simp only [List.getElem?_cons_zero, Option.some.injEq] at hd hi
              obtain rfl : d = d0 := hd.symm
              obtain rfl : i = j := hi.symm
              simp
          | succ k2 =>
              simp only [List.getElem?_cons_succ] at hd hi
              simp only [List.zipWith_cons_cons, List.getElem?_cons_succ]
              exact ih js k2 d i hd hi

/-! Helper lemmas for the nested-path update (C4). -/

theorem applySet_creates_intermediate (d : Doc) (p p1 p2 : String) (v : Json)
    (hsplit : splitDots p = [p1, p2]) (hnone : getKey d p1 = none) :
    applySet d p v = some (d ++ [(p1, Json.obj [(p2, v)])]) := by
  unfold applySet
  rw [hsplit]
  simp only [setPathAux, hnone, Option.getD_none]
  have hempty : setKey ([] : Doc) p2 v = [(p2, v)] := by
    simp [setKey, hasKey]
  rw [hempty]
  rw [setKey_of_getKey_none d p1 (Json.obj [(p2, v)]) hnone]

theorem applySet_array_index (d : Doc) (p p1 p2 : String) (v : Json) (xs : List Json)
    (hsplit : splitDots p = [p1, p2]) (harr : getKey d p1 = some (.arr xs))
    (hdig : isDigits p2 = true) (hlt : strToNat p2 < xs.length) :
    applySet d p v = some (setKey d p1 (.arr (xs.set (strToNat p2) v))) := by
  unfold applySet
  rw [hsplit]
  simp only [setPathAux, harr, Option.getD_some]
  have hne : xs.isEmpty = false := by
    cases xs
    · simp at hlt
    · rfl
  simp only [hne, Bool.not_false, hdig, Bool.and_self, if_true, hlt, if_pos]

theorem applyUpdate_single_set (d : Doc) (p : String) (v : Json) :
    applyUpdate d [("$set", Json.obj [(p, v)])] = applySet d p v := by
  unfold applyUpdate
  have hget : getKey [("$set", Json.obj [(p, v)])] "$set" = some (Json.obj [(p, v)]) := rfl
  rw [hget]
  cases h : applySet d p v <;> simp [List.foldlM, h]

theorem dbUpdate_single_id (id coll : String) (d d2 : Doc) (upd : Doc)
    (ixs : List IndexDef) (happ : applyUpdate d upd = some d2) :
    dbUpdate ⟨[⟨id, coll, d⟩], ixs⟩ coll [("_id", QVal.val (.str id))] upd =
      some (⟨[⟨id, coll, d2⟩], ixs⟩, 1) := by
  unfold dbUpdate
  have hsup : ([("_id", QVal.val (.str id))] : DictQuery).all updCondSupported = true := rfl
  rw [hsup]
  simp only [if_true]
  have hmatch : (([("_id", QVal.val (.str id))] : DictQuery).all
      (updCondEval ⟨id, coll, d⟩) && ((⟨id, coll, d⟩ : Row).collection == coll)) = true := by
    simp [updCondEval, idMatch]
  simp only [List.mapM_cons, List.mapM_nil, hmatch, if_true, happ, Option.map_some,
    Option.bind_some, Option.pure_def, List.filter_cons,
    List.filter_nil, List.length_cons, List.length_nil]
  rfl

/-! The claims. -/

/-- C6: for every dict query (other than the wildcard special case), the
condition reordering performed by the planner — index-covered fields first, in
index order — does not change the result set of `find`: it returns exactly what
evaluating the conditions in their original dictionary order returns; and with
no declared indexes for the collection the field order is left unchanged. -/
theorem c6_planner_reorder_preserves_results (s : Store) (coll : String) (q : DictQuery)
    (hw : isWildcardQuery q = false) :
    findDict s coll q = findInOriginalOrder s coll q ∧
    (listIndexes s coll = [] →
      plannedFields (listIndexes s coll) q = q.map Prod.fst) := by
  refine ⟨findDict_eq_originalOrder s coll q hw, ?_⟩
  intro hnil
  rw [hnil]
  unfold plannedFields plannerSorted
  simp

/-- C6 witness: the theorem applied to a concrete store and query. -/
theorem c6_planner_reorder_preserves_results_witness :
    (isWildcardQuery [("age", QVal.val (Json.num 3)), ("name", QVal.val (Json.str "a"))] =
      false) ∧
    (findDict
        ⟨[⟨"1", "c", [("age", Json.num 3), ("name", Json.str "a")]⟩],
          [⟨"idx_c_name", "c", ["name"], "btree", false⟩]⟩ "c"
        [("age", QVal.val (Json.num 3)), ("name", QVal.val (Json.str "a"))] =
      findInOriginalOrder
        ⟨[⟨"1", "c", [("age", Json.num 3), ("name", Json.str "a")]⟩],
          [⟨"idx_c_name", "c", ["name"], "btree", false⟩]⟩ "c"
        [("age", QVal.val (Json.num 3)), ("name", QVal.val (Json.str "a"))]) :=
  ⟨by decide,
   (c6_planner_reorder_preserves_results _ "c" _ (by decide)).1⟩

/-- C2 counterexample: the claim says a document lacking the field never
matches a `{field: null}` condition in `count` either; but `count` compiles it
to `json_extract IS NULL` without the existence check, so the document
`{"name": "Bob"}` (no `age`) is counted by the filter `{"age": null}`, while
`find` on the same store correctly returns nothing. -/
theorem c2_null_count_counterexample :
    countDict ⟨[⟨"1", "users", [("name", Json.str "Bob")]⟩], []⟩ "users"
        (some [("age", QVal.val Json.null)]) = .ok 1 ∧
    findDict ⟨[⟨"1", "users", [("name", Json.str "Bob")]⟩], []⟩ "users"
        [("age", QVal.val Json.null)] = .ok [] := by
  constructor <;> decide

/-- C2 (amended): a `{field: null}` condition in `find` matches exactly the
documents whose field path exists and holds an explicit null; in `count` the
same filter matches whenever the extracted value is SQL NULL, i.e. also the
documents lacking the field. -/
theorem c2_null_semantics (s : Store) (coll f : String) :
    findDict s coll [(f, QVal.val Json.null)] =
      .ok (((s.docs.filter (fun r => r.collection == coll &&
          (match extractField r.data f with
            | some Json.null => true
            | _ => false))).take 10000).map (fun r => r.data)) ∧
    countDict s coll (some [(f, QVal.val Json.null)]) =
      .ok ((s.docs.filter (fun r => r.collection == coll &&
          (match extractField r.data f with
            | none => true
            | some Json.null => true
            | some _ => false))).length) := by
  constructor
  · have hw : isWildcardQuery [(f, QVal.val Json.null)] = false := rfl
    rw [findDict_eq_originalOrder s coll _ hw]
    unfold findInOriginalOrder
    have hconds : buildConds [(f, QVal.val Json.null)]
        ([(f, QVal.val Json.null)].map Prod.fst) = [(f, QueryOperator.EQ, Json.null)] := by
      simp [buildConds, condsForField, lookupQ, List.find?_cons]
    rw [hconds]
    unfold executeQuery
    rw [show ([(f, QueryOperator.EQ, Json.null)].all condSupported) = true from rfl]
    simp only [if_true, List.drop_zero]
    rw [show (if (0 : Nat) == 0 then 10000 else 0) = 10000 from rfl]
    have hfilter : s.docs.filter (fun r => r.collection == coll &&
          ([(f, QueryOperator.EQ, Json.null)] : List Condition).all (evalCondExec r)) =
        s.docs.filter (fun r => r.collection == coll &&
          (match extractField r.data f with
            | some Json.null => true
            | _ => false)) := by
      apply List.filter_congr
      intro r _
      simp [evalCondExec]
    rw [hfilter]
  · unfold countDict
    dsimp only
    have hconds : countConds [(f, QVal.val Json.null)] =
        [(f, QueryOperator.EQ, Json.null)] := rfl
    rw [hconds]
    rw [show ([(f, QueryOperator.EQ, Json.null)].all countCondSupported) = true from rfl]
    simp only [if_true]
    have hfilter : s.docs.filter (fun r => r.collection == coll &&
          ([(f, QueryOperator.EQ, Json.null)] : List Condition).all (countCondEval r)) =
        s.docs.filter (fun r => r.collection == coll &&
          (match extractField r.data f with
            | none => true
            | some Json.null => true
            | some _ => false)) := by
      apply List.filter_congr
      intro r _
      simp [countCondEval]
    rw [hfilter]

/-- C8 counterexample: a malformed operator token does not raise a
`ValidationError`. In `find` the `$bogus` condition is silently dropped (the
document is returned as if unfiltered), and in `find_one` it is reinterpreted
as an equality test (here matching the document with `age = 3`). -/
theorem c8_malformed_operator_counterexample :
    findDict ⟨[⟨"1", "c", [("age", Json.num 3)]⟩], []⟩ "c"
        [("age", QVal.ops [("$bogus", Json.num 5)])] = .ok [[("age", Json.num 3)]] ∧
    findOneDict ⟨[⟨"1", "c", [("age", Json.num 3)]⟩], []⟩ "c"
        [("age", QVal.ops [("$bogus", Json.num 3)])] =
      .ok (some [("age", Json.num 3)]) := by
  constructor <;> decide

/-- C8 (amended): a `$`-prefixed operator token outside the supported set never
raises: `find` drops the condition entirely (the query behaves as if the
operator entry were absent), and `find_one` compiles it to an equality
condition on the operand. -/
theorem c8_malformed_operator_semantics (s : Store) (coll f tok : String) (v : Json)
    (hop : opFromToken (stripDollars tok) = none) :
    findDict s coll [(f, QVal.ops [(tok, v)])] = findDict s coll [(f, QVal.ops [])] ∧
    findOneConds [(f, QVal.ops [(tok, v)])] = [(f, QueryOperator.EQ, v)] := by
  have htokc : (tok == "$contains") = false := by
    rcases hx : tok == "$contains"
    · rfl
    · have he : tok = "$contains" := by simpa using hx
      rw [he] at hop
      exact absurd hop (by decide)
  have hne : ∀ t2 : String, opFromToken t2 ≠ none → (stripDollars tok == t2) = false := by
    intro t2 ht2
    rcases hx : stripDollars tok == t2
    · rfl
    · have he : stripDollars tok = t2 := by simpa using hx
      rw [he] at hop
      exact absurd hop ht2
  constructor
  · have hw1 : isWildcardQuery [(f, QVal.ops [(tok, v)])] = false := by
      simp [isWildcardQuery, htokc]
    have hw2 : isWildcardQuery [(f, QVal.ops [])] = false := by
      simp [isWildcardQuery]
    rw [findDict_eq_originalOrder _ _ _ hw1, findDict_eq_originalOrder _ _ _ hw2]
    unfold findInOriginalOrder
    have hc1 : buildConds [(f, QVal.ops [(tok, v)])]
        ([(f, QVal.ops [(tok, v)])].map Prod.fst) = [] := by
      simp [buildConds, condsForField, lookupQ, List.find?_cons, hop]
    have hc2 : buildConds [(f, QVal.ops [])]
        ([(f, QVal.ops [])].map Prod.fst) = [] := by
      simp [buildConds, condsForField, lookupQ, List.find?_cons]
    rw [hc1, hc2]
  · have hgte : stripDollars tok ≠ "gte" := by simpa using hne "gte" (by decide)
    have hlte : stripDollars tok ≠ "lte" := by simpa using hne "lte" (by decide)
    have hin : stripDollars tok ≠ "in" := by simpa using hne "in" (by decide)
    have hcont : stripDollars tok ≠ "contains" := by simpa using hne "contains" (by decide)
    simp [findOneConds, hgte, hlte, hin, hcont]

/-- C8 amended witness: the theorem applied at a concrete store and token. -/
theorem c8_malformed_operator_semantics_witness :
    (opFromToken (stripDollars "$bogus") = none) ∧
    (findDict ⟨[⟨"1", "c", [("age", Json.num 3)]⟩], []⟩ "c"
        [("age", QVal.ops [("$bogus", Json.num 5)])] =
      findDict ⟨[⟨"1", "c", [("age", Json.num 3)]⟩], []⟩ "c" [("age", QVal.ops [])]) ∧
    (findOneConds [("age", QVal.ops [("$bogus", Json.num 5)])] =
      [("age", QueryOperator.EQ, Json.num 5)]) :=
  ⟨by decide,
   (c8_malformed_operator_semantics _ "c" "age" "$bogus" (Json.num 5) (by decide)).1,
   (c8_malformed_operator_semantics ⟨[], []⟩ "c" "age" "$bogus" (Json.num 5) (by decide)).2⟩

/-- C9 counterexample: a database constructed with `max_result_size = 1` still
returns 2 documents from an unlimited query — `execute_query` hardcodes
`LIMIT 10000` and never reads the configured cap. -/
theorem c9_max_result_size_counterexample :
    dbExecuteQuery
        ⟨⟨[⟨"1", "c", [("a", Json.num 1)]⟩, ⟨"2", "c", [("a", Json.num 2)]⟩], []⟩,
          10, 1, false⟩
        { collection := "c" } = .ok [[("a", Json.num 1)], [("a", Json.num 2)]] ∧
    (⟨⟨[⟨"1", "c", [("a", Json.num 1)]⟩, ⟨"2", "c", [("a", Json.num 2)]⟩], []⟩,
        10, 1, false⟩ : Database).maxResultSize = 1 := by
  constructor <;> decide

/-- C9 (amended): a query without an explicit limit is capped by the literal
10000 of `execute_query`, independently of the `max_result_size` value the
database was constructed with (changing that field does not change any query
result). -/
theorem c9_default_limit_is_constant (db : Database) (q : Query) (m : Nat)
    (hlim : q.limitValue = 0) :
    dbExecuteQuery { db with maxResultSize := m } q = dbExecuteQuery db q ∧
    ∀ docs, dbExecuteQuery db q = .ok docs → docs.length ≤ 10000 := by
  constructor
  · rfl
  · intro docs h
    unfold dbExecuteQuery executeQuery at h
    by_cases hs : q.conditions.all condSupported = true
    · rw [if_pos hs] at h
      simp only [Except.ok.injEq] at h
      subst h
      rw [List.length_map, hlim]
      rw [show (if (0 : Nat) == 0 then 10000 else 0) = 10000 from rfl]
      rw [List.length_take]
      exact Nat.min_le_left _ _
    · rw [if_neg hs] at h
      cases h

/-- C9 amended witness: the theorem applied at a concrete database and query. -/
theorem c9_default_limit_is_constant_witness :
    ((({ collection := "c" } : Query).limitValue = 0) ∧
     dbExecuteQuery
        ⟨⟨[⟨"1", "c", [("a", Json.num 1)]⟩], []⟩, 10, 7, false⟩
        { collection := "c" } =
      dbExecuteQuery ⟨⟨[⟨"1", "c", [("a", Json.num 1)]⟩], []⟩, 10, 10000, false⟩
        { collection := "c" }) :=
  ⟨rfl,
   (c9_default_limit_is_constant
      ⟨⟨[⟨"1", "c", [("a", Json.num 1)]⟩], []⟩, 10, 10000, false⟩
      { collection := "c" } 7 rfl).1⟩

/-- C1: `insert_many` with a validator either validates every document and
then inserts all of them — returning exactly one fresh identifier per document,
each document retrievable afterwards by its identifier — or, when any document
fails the validator, raises the validation error before any write, leaving the
store (and the caller's documents) untouched. -/
theorem c1_insert_many_validation (s : Store) (coll : String) (v : Doc → Bool)
    (docs : List Doc) (ids : List String)
    (hlen : ids.length = docs.length) (hnd : ids.Nodup)
    (hfresh : ∀ i ∈ ids, ∀ r ∈ s.docs, r.id ≠ i) :
    (docs.all v = true →
      (insertMany s coll (some v) docs ids).2.2 = .ok ids ∧
      ids.length = docs.length ∧
      ∀ (k : Nat) (d : Doc) (i : String), docs[k]? = some d → ids[k]? = some i →
        findOneDict (insertMany s coll (some v) docs ids).1 coll
          [("_id", QVal.val (.str i))] = .ok (some (setKey d "_id" (.str i)))) ∧
    (docs.all v = false →
      insertMany s coll (some v) docs ids = (s, docs, .error DBErr.validationError)) := by
  constructor
  · intro hall
    have hins : insertMany s coll (some v) docs ids = bulkInsert s coll docs ids := by
      simp [insertMany, hall]
    have hbulk := bulkInsert_components s coll docs ids hlen hnd hfresh
    refine ⟨by rw [hins, hbulk], hlen, ?_⟩
    intro k d i hd hi
    rw [hins, hbulk]
    rw [findOneDict_id_eq]
    have hin : i ∈ ids := List.getElem?_mem hi
    simp only [List.filter_append]
    rw [filter_fresh_nil s coll i (fun r hr => hfresh i hin r hr), List.nil_append]
    rw [filter_zipWith_at coll i docs ids k d hnd hd hi]
    simp [stampRow]
  · intro hfail
    simp [insertMany, hfail]

/-- C1 witness: a two-document bulk insert through a validator that accepts
both, and the same validator rejecting a third document. -/
theorem c1_insert_many_validation_witness :
    ((["i1", "i2"] : List String).length = ([[("age", Json.num 1)],
        [("age", Json.num 2)]] : List Doc).length ∧
     (["i1", "i2"] : List String).Nodup ∧
     ([[("age", Json.num 1)], [("age", Json.num 2)]] : List Doc).all
        (fun d => getKey d "age" == some (Json.num 1) ||
          getKey d "age" == some (Json.num 2)) = true) ∧
    findOneDict
      (insertMany ⟨[], []⟩ "c"
        (some (fun d => getKey d "age" == some (Json.num 1) ||
          getKey d "age" == some (Json.num 2)))
        [[("age", Json.num 1)], [("age", Json.num 2)]] ["i1", "i2"]).1 "c"
      [("_id", QVal.val (.str "i2"))] =
      .ok (some [("age", Json.num 2), ("_id", Json.str "i2")]) := by
  refine ⟨⟨by decide, by decide, by decide⟩, ?_⟩
  have h := (c1_insert_many_validation ⟨[], []⟩ "c"
    (fun d => getKey d "age" == some (Json.num 1) || getKey d "age" == some (Json.num 2))
    [[("age", Json.num 1)], [("age", Json.num 2)]] ["i1", "i2"]
    (by decide) (by decide) (by decide)).1 (by decide)
  have h2 := h.2.2 1 [("age", Json.num 2)] "i2" (by decide) (by decide)
  rw [h2]
  decide

/-- C5: a document inserted through `insert` (single-document `bulk_insert`) or
through a bulk insert is retrievable by `find_one({"_id": id})`, and the
fetched payload is exactly the input document plus the assigned identifier
under the reserved `_id` key. -/
theorem c5_insert_then_fetch_roundtrip (s : Store) (coll : String) (d : Doc) (id : String)
    (hfresh : ∀ r ∈ s.docs, r.id ≠ id) :
    (dbInsert s coll d id).2.2 = .ok [id] ∧
    findOneDict (dbInsert s coll d id).1 coll [("_id", QVal.val (.str id))] =
      .ok (some (setKey d "_id" (.str id))) ∧
    (∀ (docs : List Doc) (ids : List String) (k : Nat) (dk : Doc) (i : String),
      ids.length = docs.length → ids.Nodup →
      (∀ j ∈ ids, ∀ r ∈ s.docs, r.id ≠ j) →
      docs[k]? = some dk → ids[k]? = some i →
      (bulkInsert s coll docs ids).2.2 = .ok ids ∧
      findOneDict (bulkInsert s coll docs ids).1 coll [("_id", QVal.val (.str i))] =
        .ok (some (setKey dk "_id" (.str i)))) := by
  have hsingle := bulkInsert_components s coll [d] [id] rfl
    (by simp)
    (by
      intro i hi r hr
      simp only [List.mem_singleton] at hi
      subst hi
      exact hfresh r hr)
  refine ⟨by rw [dbInsert, hsingle], ?_, ?_⟩
  · rw [dbInsert, hsingle]
    rw [findOneDict_id_eq]
    simp only [List.filter_append]
    rw [filter_fresh_nil s coll id hfresh]
    rw [filter_zipWith_at coll id [d] [id] 0 d (by simp) (by simp) (by simp),
      List.nil_append]
    simp [stampRow]
  · intro docs ids k dk i hlen hnd hf hd hi
    have hbulk := bulkInsert_components s coll docs ids hlen hnd hf
    refine ⟨by rw [hbulk], ?_⟩
    rw [hbulk]
    rw [findOneDict_id_eq]
    have hin : i ∈ ids := List.getElem?_mem hi
    simp only [List.filter_append]
    rw [filter_fresh_nil s coll i (fun r hr => hf i hin r hr), List.nil_append]
    rw [filter_zipWith_at coll i docs ids k dk hnd hd hi]
    simp [stampRow]

/-- C5 witness: the theorem applied at a concrete store, document and id. -/
theorem c5_insert_then_fetch_roundtrip_witness :
    (∀ r ∈ (⟨[⟨"0", "c", []⟩], []⟩ : Store).docs, r.id ≠ "i9") ∧
    findOneDict (dbInsert ⟨[⟨"0", "c", []⟩], []⟩ "c" [("name", Json.str "Ada")] "i9").1 "c"
      [("_id", QVal.val (.str "i9"))] =
      .ok (some [("name", Json.str "Ada"), ("_id", Json.str "i9")]) := by
  refine ⟨by decide, ?_⟩
  have h := (c5_insert_then_fetch_roundtrip ⟨[⟨"0", "c", []⟩], []⟩ "c"
    [("name", Json.str "Ada")] "i9" (by decide)).2.1
  rw [h]
  decide

/-- C10: `bulk_insert` mutates every caller-supplied document in place — after
the call each input mapping holds its assigned identifier under `_id` and every
other key is untouched — and `insert_many` (hence `insert`) exposes the same
mutated documents when validation passes. -/
theorem c10_bulk_insert_stamps_inputs (s : Store) (coll : String) (docs : List Doc)
    (ids : List String) (hlen : ids.length = docs.length) :
    (bulkInsert s coll docs ids).2.1 =
      (List.zipWith (stampRow coll) docs ids).map (fun r => r.data) ∧
    (∀ (k : Nat) (d : Doc) (i : String), docs[k]? = some d → ids[k]? = some i →
      (bulkInsert s coll docs ids).2.1[k]? = some (setKey d "_id" (.str i)) ∧
      getKey (setKey d "_id" (.str i)) "_id" = some (.str i) ∧
      ∀ key, key ≠ "_id" → getKey (setKey d "_id" (.str i)) key = getKey d key) ∧
    (∀ v, docs.all v = true →
      (insertMany s coll (some v) docs ids).2.1 = (bulkInsert s coll docs ids).2.1) := by
  have hstamped : (bulkInsert s coll docs ids).2.1 =
      (List.zipWith (stampRow coll) docs ids).map (fun r => r.data) := by
    unfold bulkInsert
    have h1 : (ids.length != docs.length) = false := by simp [hlen]
    rw [h1]
    simp only [Bool.false_eq_true, if_false]
    split <;> rfl
  refine ⟨hstamped, ?_, ?_⟩
  · intro k d i hd hi
    refine ⟨?_, getKey_setKey_same d "_id" (.str i), ?_⟩
    · rw [hstamped, List.getElem?_map, zipWith_getElem?_of coll docs ids k d i hd hi]
      rfl
    · intro key hkey
      exact getKey_setKey_ne d "_id" key (.str i) hkey
  · intro v hv
    simp [insertMany, hv]

/-- C10 witness: the theorem applied at a concrete store and input list. -/
theorem c10_bulk_insert_stamps_inputs_witness :
    ((["j1"] : List String).length = ([[("a", Json.num 7)]] : List Doc).length ∧
     ([[("a", Json.num 7)]] : List Doc)[0]? = some [("a", Json.num 7)] ∧
     (["j1"] : List String)[0]? = some "j1") ∧
    (bulkInsert ⟨[], []⟩ "c" [[("a", Json.num 7)]] ["j1"]).2.1[0]? =
      some (setKey [("a", Json.num 7)] "_id" (.str "j1")) := by
  refine ⟨⟨rfl, rfl, rfl⟩, ?_⟩
  exact (((c10_bulk_insert_stamps_inputs ⟨[], []⟩ "c" [[("a", Json.num 7)]] ["j1"]
    rfl).2.1) 0 [("a", Json.num 7)] "j1" rfl rfl).1

/-- C3 counterexample: the wildcard query does not fetch all documents of the
collection — the conditionless fetch behind it carries `execute_query`'s
hardcoded `LIMIT 10000` (database.py:214). On a collection of 10001 documents
whose only match for "tech" sits beyond the cap, `find` returns nothing, while
the set of documents in which some scalar matches "tech" is that one document.
-/
theorem c3_wildcard_cap_counterexample :
    findDict
        ⟨(List.range 10000).map (fun n => Row.mk (toString n) "c" []) ++
          [Row.mk "match" "c" [("tag", Json.str "tech")]], []⟩ "c"
        [("*", QVal.ops [("$contains", Json.str "tech")])] = .ok [] ∧
    ((((List.range 10000).map (fun n => Row.mk (toString n) "c" []) ++
          [Row.mk "match" "c" [("tag", Json.str "tech")]]).filter
        (fun r => r.collection == "c")).map (fun r => r.data)).filter
      (fun d => searchDoc "tech" d) = [[("tag", Json.str "tech")]] := by
  have hfilter : ((List.range 10000).map (fun n => Row.mk (toString n) "c" []) ++
      [Row.mk "match" "c" [("tag", Json.str "tech")]]).filter
        (fun r => r.collection == "c") =
      (List.range 10000).map (fun n => Row.mk (toString n) "c" []) ++
        [Row.mk "match" "c" [("tag", Json.str "tech")]] := by
    rw [List.filter_eq_self]
    intro r hr
    rcases List.mem_append.mp hr with h | h
    · obtain ⟨n, _, rfl⟩ := List.mem_map.mp h
      rfl
    · rw [List.mem_singleton] at h
      subst h
      rfl
  have hlen : ((List.range 10000).map
      (fun n => Row.mk (toString n) "c" [])).length = 10000 := by
    rw [List.length_map, List.length_range]
  have htake : ((List.range 10000).map (fun n => Row.mk (toString n) "c" []) ++
      [Row.mk "match" "c" [("tag", Json.str "tech")]]).take 10000 =
      (List.range 10000).map (fun n => Row.mk (toString n) "c" []) :=
    List.take_left' hlen
  have hnomatch : (((List.range 10000).map
      (fun n => Row.mk (toString n) "c" [])).map (fun r => r.data)).filter
        (fun d => searchDoc "tech" d) = [] := by
    rw [List.filter_eq_nil_iff]
    intro d hd
    obtain ⟨r, hr, rfl⟩ := List.mem_map.mp hd
    obtain ⟨n, _, rfl⟩ := List.mem_map.mp hr
    show ¬searchDoc "tech" ([] : Doc) = true
    decide
  constructor
  · unfold findDict
    rw [show isWildcardQuery [("*", QVal.ops [("$contains", Json.str "tech")])] =
      true from rfl]
    simp only [if_true]
    rw [show wildcardTerm [("*", QVal.ops [("$contains", Json.str "tech")])] =
      some (Json.str "tech") from rfl]
    unfold executeQuery
    simp only [List.all_nil, if_true, Bool.and_true, List.drop_zero]
    rw [show (if (0 : Nat) == 0 then 10000 else 0) = 10000 from rfl]
    rw [hfilter, htake, hnomatch]
  · rw [hfilter, List.map_append, List.filter_append, hnomatch, List.nil_append]
    decide

/-- C3 (amended): the wildcard query `{"*": {"$contains": t}}` bypasses index
planning — whatever indexes are declared, the result does not depend on them —
but the conditionless fetch behind it is capped at `execute_query`'s default
`LIMIT 10000`: it scans the first 10000 documents of the collection in storage
order and returns exactly the fetched documents whose nested payload contains
`t` under the recursive case-insensitive scan (strings by substring, numbers by
their string form, mappings and sequences traversed recursively). For
collections of at most 10000 documents this is exactly the set of matching
documents; in particular "tech" is found inside the payload
`{"profile": {"interests": ["tech"]}}`. -/
theorem c3_wildcard_capped_scan (rows : List Row) (ixs : List IndexDef) (coll t : String) :
    findDict ⟨rows, ixs⟩ coll [("*", QVal.ops [("$contains", Json.str t)])] =
      .ok ((((rows.filter (fun r => r.collection == coll)).take 10000).map
        (fun r => r.data)).filter (fun d => searchDoc t d)) ∧
    ((rows.filter (fun r => r.collection == coll)).length ≤ 10000 →
      findDict ⟨rows, ixs⟩ coll [("*", QVal.ops [("$contains", Json.str t)])] =
        .ok (((rows.filter (fun r => r.collection == coll)).map (fun r => r.data)).filter
          (fun d => searchDoc t d))) ∧
    searchDoc "tech" [("profile", Json.obj [("interests", Json.arr [Json.str "tech"])])] =
      true := by
  have hmain : findDict ⟨rows, ixs⟩ coll [("*", QVal.ops [("$contains", Json.str t)])] =
      .ok ((((rows.filter (fun r => r.collection == coll)).take 10000).map
        (fun r => r.data)).filter (fun d => searchDoc t d)) := by
    unfold findDict
    rw [show isWildcardQuery [("*", QVal.ops [("$contains", Json.str t)])] = true from rfl]
    simp only [if_true]
    rw [show wildcardTerm [("*", QVal.ops [("$contains", Json.str t)])] =
      some (Json.str t) from rfl]
    unfold executeQuery
    simp only [List.all_nil, if_true, Bool.and_true, List.drop_zero]
    rw [show (if (0 : Nat) == 0 then 10000 else 0) = 10000 from rfl]
  refine ⟨hmain, ?_, by decide⟩
  intro hsize
  rw [hmain, List.take_of_length_le hsize]

/-- C3 witness: the theorem applied to a one-document store with a declared
index present, the below-cap implication discharged concretely. -/
theorem c3_wildcard_capped_scan_witness :
    (((([⟨"1", "c", [("profile", Json.obj [("interests", Json.arr [Json.str "tech"])])]⟩] :
        List Row).filter (fun r => r.collection == "c")).length ≤ 10000) ∧
     findDict
        ⟨[⟨"1", "c", [("profile", Json.obj [("interests", Json.arr [Json.str "tech"])])]⟩],
          [⟨"idx_c_name", "c", ["name"], "btree", false⟩]⟩ "c"
        [("*", QVal.ops [("$contains", Json.str "tech")])] =
      .ok [[("profile", Json.obj [("interests", Json.arr [Json.str "tech"])])]]) := by
  refine ⟨by decide, ?_⟩
  have h := (c3_wildcard_capped_scan
    [⟨"1", "c", [("profile", Json.obj [("interests", Json.arr [Json.str "tech"])])]⟩]
    [⟨"idx_c_name", "c", ["name"], "btree", false⟩] "c" "tech").2.1 (by decide)
  rw [h]
  decide

/-- C4: a `$set` update with a dotted path: when the first segment is missing
from the document, the intermediate mapping is created and the nested key set
(the new key appended in insertion order); when the path addresses an existing
array with a numeric trailing segment in range, exactly that index is replaced
in place — the other keys of the document and the other array elements are
unchanged. -/
theorem c4_nested_set_update (id coll p1 p2 : String) (d : Doc) (v : Json)
    (ixs : List IndexDef) :
    (∀ p : String, splitDots p = [p1, p2] → getKey d p1 = none →
      dbUpdate ⟨[⟨id, coll, d⟩], ixs⟩ coll [("_id", QVal.val (.str id))]
          [("$set", Json.obj [(p, v)])] =
        some (⟨[⟨id, coll, d ++ [(p1, Json.obj [(p2, v)])]⟩], ixs⟩, 1)) ∧
    (∀ (p : String) (xs : List Json), splitDots p = [p1, p2] →
      getKey d p1 = some (.arr xs) → isDigits p2 = true → strToNat p2 < xs.length →
      dbUpdate ⟨[⟨id, coll, d⟩], ixs⟩ coll [("_id", QVal.val (.str id))]
          [("$set", Json.obj [(p, v)])] =
        some (⟨[⟨id, coll, setKey d p1 (.arr (xs.set (strToNat p2) v))⟩], ixs⟩, 1) ∧
      getKey (setKey d p1 (.arr (xs.set (strToNat p2) v))) p1 =
        some (.arr (xs.set (strToNat p2) v)) ∧
      (∀ k2, k2 ≠ p1 →
        getKey (setKey d p1 (.arr (xs.set (strToNat p2) v))) k2 = getKey d k2) ∧
      (xs.set (strToNat p2) v).length = xs.length ∧
      ∀ j : Nat, j ≠ strToNat p2 → (xs.set (strToNat p2) v)[j]? = xs[j]?) := by
  constructor
  · intro p hsplit hnone
    apply dbUpdate_single_id
    rw [applyUpdate_single_set]
    exact applySet_creates_intermediate d p p1 p2 v hsplit hnone
  · intro p xs hsplit harr hdig hlt
    refine ⟨?_, ?_, ?_, ?_, ?_⟩
    · apply dbUpdate_single_id
      rw [applyUpdate_single_set]
      exact applySet_array_index d p p1 p2 v xs hsplit harr hdig hlt
    · exact getKey_setKey_same d p1 _
    · intro k2 hk2
      exact getKey_setKey_ne d p1 k2 _ hk2
    · exact List.length_set xs (strToNat p2) v
    · intro j hj
      exact List.getElem?_set_ne (by omega)

/-- C4 witness: the theorem applied at a concrete document, creating `a.b` and
replacing `tags.0`. -/
theorem c4_nested_set_update_witness :
    (splitDots "a.b" = ["a", "b"] ∧
     getKey [("x", Json.num 0), ("tags", Json.arr [Json.str "u", Json.str "w"])] "a" =
       none ∧
     splitDots "tags.0" = ["tags", "0"] ∧
     getKey [("x", Json.num 0), ("tags", Json.arr [Json.str "u", Json.str "w"])] "tags" =
       some (Json.arr [Json.str "u", Json.str "w"]) ∧
     isDigits "0" = true ∧ strToNat "0" < 2) ∧
    dbUpdate ⟨[⟨"1", "c", [("x", Json.num 0),
          ("tags", Json.arr [Json.str "u", Json.str "w"])]⟩], []⟩ "c"
        [("_id", QVal.val (.str "1"))] [("$set", Json.obj [("a.b", Json.num 5)])] =
      some (⟨[⟨"1", "c", [("x", Json.num 0),
          ("tags", Json.arr [Json.str "u", Json.str "w"]),
          ("a", Json.obj [("b", Json.num 5)])]⟩], []⟩, 1) ∧
    dbUpdate ⟨[⟨"1", "c", [("x", Json.num 0),
          ("tags", Json.arr [Json.str "u", Json.str "w"])]⟩], []⟩ "c"
        [("_id", QVal.val (.str "1"))] [("$set", Json.obj [("tags.0", Json.str "z")])] =
      some (⟨[⟨"1", "c", [("x", Json.num 0),
          ("tags", Json.arr [Json.str "z", Json.str "w"])]⟩], []⟩, 1) := by
  refine ⟨⟨by decide, by decide, by decide, by decide, by decide, by decide⟩, ?_, ?_⟩
  · exact (c4_nested_set_update "1" "c" "a" "b"
      [("x", Json.num 0), ("tags", Json.arr [Json.str "u", Json.str "w"])]
      (Json.num 5) []).1 "a.b" (by decide) (by decide)
  · have h := ((c4_nested_set_update "1" "c" "tags" "0"
      [("x", Json.num 0), ("tags", Json.arr [Json.str "u", Json.str "w"])]
      (Json.str "z") []).2 "tags.0" [Json.str "u", Json.str "w"]
      (by decide) (by decide) (by decide) (by decide)).1
    rw [h]
    decide

/-- C7: creating the same field-list index twice on a collection is
idempotent — both calls derive the same deterministic name, the second call
leaves the store exactly as the first left it, and `list_indexes` reports
exactly one definition carrying that field list. -/
theorem c7_create_index_idempotent (s : Store) (coll : String) (fs : List String)
    (ty : String) (u : Bool)
    (hinv : ∀ e ∈ s.indexes, e.collection = coll → e.fields = fs →
      e.name = indexName coll fs) :
    (createIndex s coll fs ty u).2 =
      (createIndex (createIndex s coll fs ty u).1 coll fs ty u).2 ∧
    (createIndex (createIndex s coll fs ty u).1 coll fs ty u).1 =
      (createIndex s coll fs ty u).1 ∧
    ((listIndexes (createIndex (createIndex s coll fs ty u).1 coll fs ty u).1 coll).filter
      (fun e => e.fields == fs)).length = 1 := by
  have hide : (createIndex (createIndex s coll fs ty u).1 coll fs ty u).1 =
      (createIndex s coll fs ty u).1 := by
    unfold createIndex
    simp only [List.filter_append]
    have hself : ([(⟨indexName coll fs, coll, fs, ty, u⟩ : IndexDef)].filter
        (fun e => !(e.name == indexName coll fs))) = [] := by
      simp
    rw [hself, List.append_nil, List.filter_filter]
    have : (s.indexes.filter
        (fun e => !(e.name == indexName coll fs) && !(e.name == indexName coll fs))) =
        s.indexes.filter (fun e => !(e.name == indexName coll fs)) := by
      apply List.filter_congr
      intro e _
      rw [Bool.and_self]
    rw [this]
  refine ⟨rfl, hide, ?_⟩
  rw [hide]
  unfold createIndex listIndexes
  simp only [List.filter_append, List.filter_filter]
  have hold : (s.indexes.filter (fun e =>
      (e.fields == fs) && ((e.collection == coll) && !(e.name == indexName coll fs)))) =
      [] := by
    rw [List.filter_eq_nil_iff]
    intro e he
    intro hcontra
    simp only [Bool.and_eq_true, Bool.not_eq_true', beq_iff_eq, beq_eq_false_iff_ne] at hcontra
    exact hcontra.2.2 (hinv e he hcontra.2.1 hcontra.1)
  have hnew : (([(⟨indexName coll fs, coll, fs, ty, u⟩ : IndexDef)] : List IndexDef).filter
      (fun e => (e.fields == fs) && (e.collection == coll))) =
      [⟨indexName coll fs, coll, fs, ty, u⟩] := by
    simp
  simp only [List.length_append]
  rw [hold]
  simp

/-- C7 witness: the theorem applied at the empty store. -/
theorem c7_create_index_idempotent_witness :
    (∀ e ∈ (⟨[], []⟩ : Store).indexes, e.collection = "users" → e.fields = ["email"] →
      e.name = indexName "users" ["email"]) ∧
    (createIndex (createIndex ⟨[], []⟩ "users" ["email"] "btree" false).1
        "users" ["email"] "btree" false).1 =
      (createIndex ⟨[], []⟩ "users" ["email"] "btree" false).1 ∧
    ((listIndexes (createIndex (createIndex ⟨[], []⟩ "users" ["email"] "btree" false).1
        "users" ["email"] "btree" false).1 "users").filter
      (fun e => e.fields == ["email"])).length = 1 := by
  refine ⟨by simp, ?_, ?_⟩
  · exact (c7_create_index_idempotent ⟨[], []⟩ "users" ["email"] "btree" false
      (by simp)).2.1
  · exact (c7_create_index_idempotent ⟨[], []⟩ "users" ["email"] "btree" false
      (by simp)).2.2
